import Mathlib

/-!
# SenRAG: chunking, ingestion and query pipelines

A shallow embedding of the Go sources under `backend/` and the properties of
the document chunker (`services/rag_service.go`), the text extractor
(`rag/embedder.go`) and the ingestion and query pipelines.

Go strings whose bytes the program inspects (file contents, chunks) are lists
of bytes, each byte a natural number below 256; `len` is `List.length`.
-/

namespace SenRAG

/-! ## The chunker -/

/-- A Go string seen as its sequence of bytes. -/
abbrev Bytes := List Nat

/-- The byte of the separator `"\n"`. -/
def newline : Nat := 10

/-- The constant `chunkSize` of `splitIntoChunks`. -/
def chunkSize : Nat := 1000

/-- The constant `chunkOverlap` of `splitIntoChunks`. -/
def chunkOverlap : Nat := 200

/-- Go's `strings.Split(content, "\n")`: the pieces between the newline
separators; a string without a newline (the empty one too) gives one piece. -/
def splitLines : Bytes → List Bytes
  | [] => [[]]
  | c :: cs =>
    if c = newline then [] :: splitLines cs
    else
      match splitLines cs with
      | [] => [[c]]
      | l :: ls => (c :: l) :: ls

/-- The loop state of `splitIntoChunks`: the chunks emitted so far and the
running buffer `currentChunk`. -/
structure ChunkState where
  chunks : List Bytes
  currentChunk : Bytes
deriving DecidableEq

/-- What the buffer is reset to after a chunk is emitted (lines 99-105): its
last `chunkOverlap` bytes when it is longer than that, the empty buffer
otherwise. -/
def overlapOf (content : Bytes) : Bytes :=
  if content.length > chunkOverlap then content.drop (content.length - chunkOverlap)
  else []

/-- One iteration of the `for _, line := range lines` loop (lines 94-110). -/
def chunkStep (st : ChunkState) (line : Bytes) : ChunkState :=
  let st1 : ChunkState :=
    if st.currentChunk.length + line.length > chunkSize then
      if st.currentChunk.length > 0 then
        { chunks := st.chunks ++ [st.currentChunk]
          currentChunk := overlapOf st.currentChunk }
      else st
    else st
  { chunks := st1.chunks, currentChunk := st1.currentChunk ++ line ++ [newline] }

/-- The method `RAGService.splitIntoChunks` (rag_service.go, lines 84-120). -/
def splitIntoChunks (content : Bytes) : List Bytes :=
  let st := (splitLines content).foldl chunkStep { chunks := [], currentChunk := [] }
  let chunks := if st.currentChunk.length > 0 then st.chunks ++ [st.currentChunk] else st.chunks
  if chunks.length = 0 then [content] else chunks

/-- The lines written back one after the other, each followed by a newline, as
the loop writes them into the buffer (lines 108-109). -/
def joinLines : List Bytes → Bytes
  | [] => []
  | l :: ls => l ++ newline :: joinLines ls

/-- The loop of `splitIntoChunks` followed by the final flush of line 112, in
recursive form: the chunks produced from the buffer `cur` over the remaining
lines. `foldl_chunkStep` relates it to the loop itself. -/
def chunkLoop (cur : Bytes) : List Bytes → List Bytes
  | [] => if cur.length > 0 then [cur] else []
  | line :: rest =>
    if cur.length + line.length > chunkSize ∧ cur.length > 0 then
      cur :: chunkLoop (overlapOf cur ++ line ++ [newline]) rest
    else chunkLoop (cur ++ line ++ [newline]) rest

/-- The chunks determined by a grouping of the lines: every chunk is the overlap
of its predecessor `prev` followed by the lines of its group. -/
def buildChunks (prev : Bytes) : List (List Bytes) → List Bytes
  | [] => []
  | g :: gs =>
    (overlapOf prev ++ joinLines g) :: buildChunks (overlapOf prev ++ joinLines g) gs

/-- The number of leading bytes of a chunk that repeat its predecessor `prev`:
200 when the predecessor is longer than 200, none otherwise. -/
def overlapLen (prev : Bytes) : Nat := if prev.length > 200 then 200 else 0

/-- The later chunks, each with the overlap carried over from its predecessor
removed from its front, appended in order. -/
def stripOverlaps (prev : Bytes) : List Bytes → Bytes
  | [] => []
  | c :: rest => c.drop (overlapLen prev) ++ stripOverlaps c rest

/-- The text rebuilt from a list of chunks: the first chunk, then every later
chunk without its leading overlap. -/
def reconstruct : List Bytes → Bytes
  | [] => []
  | c :: rest => c ++ stripOverlaps c rest

/-! ## The clients and the pipelines -/

/-- The bytes (UTF-8) of a string literal of the source. -/
def utf8 (s : String) : Bytes :=
  s.toList.flatMap fun c => (String.utf8EncodeChar c).map UInt8.toNat

/-- A `float32` value, kept as its bit pattern: the program only copies them. -/
abbrev Float32 := Nat

/-- An embedding vector, `[]float32`. -/
abbrev Embedding := List Float32

/-- How a call ends: with a value, with a returned `error` (its message), or
with a run-time panic of the Go runtime (its message). -/
inductive Result (α : Type) where
  | ok (value : α)
  | error (msg : Bytes)
  | crash (msg : Bytes)
deriving DecidableEq

/-- The `openai.EmbeddingRequest` the embedder sends. -/
structure EmbeddingRequest where
  Model : Bytes
  Input : List Bytes
deriving DecidableEq

/-- An `openai.ChatCompletionMessage`. -/
structure ChatCompletionMessage where
  Role : Bytes
  Content : Bytes
deriving DecidableEq

/-- The `openai.ChatCompletionRequest` the chat client sends. -/
structure ChatCompletionRequest where
  Model : Bytes
  Messages : List ChatCompletionMessage
deriving DecidableEq

/-- The struct `rag.ChatMessage` (llm.go). -/
structure ChatMessage where
  Role : Bytes
  Content : Bytes
deriving DecidableEq

/-- The struct `rag.Document` (qdrant.go); a nil `Metadata` map is the empty list. -/
structure Document where
  Content : Bytes
  Source : Bytes
  Vector : Embedding
  Metadata : List (Bytes × Bytes)
deriving DecidableEq

/-- The struct `rag.SearchResult` (qdrant.go); `Score` is a `float64` kept as
the bit pattern of the `float32` it was converted from. -/
structure SearchResult where
  Content : Bytes
  Source : Bytes
  Score : Float32
  Metadata : List (Bytes × Bytes)
deriving DecidableEq

/-- A point handed to the vector store by `AddDocuments`: its numeric id, its
vector and the three payload entries. -/
structure PointStruct where
  Id : Nat
  Vectors : Embedding
  content : Bytes
  source : Bytes
  metadata : List (Bytes × Bytes)
deriving DecidableEq

/-- The upsert request of `AddDocuments`. -/
structure UpsertPoints where
  CollectionName : Bytes
  Points : List PointStruct
deriving DecidableEq

/-- The search request of `VectorStore.Search`; `Limit` is a `uint64`. -/
structure SearchPoints where
  CollectionName : Bytes
  QueryVector : Embedding
  Limit : Nat
  WithPayload : Bool
deriving DecidableEq

/-- What `GetInterface()` of a payload value yields: a string or something else. -/
inductive PayloadValue where
  | str (s : Bytes)
  | other
deriving DecidableEq

/-- A scored point of a search response: its payload (`none` for a nil payload)
and its score. -/
structure ScoredPoint where
  Payload : Option (List (Bytes × PayloadValue))
  Score : Float32
deriving DecidableEq

/-- The calls the program makes to its external collaborators, with the request
each one carries. -/
inductive Event where
  | readFile (path : Bytes)
  | createEmbeddings (req : EmbeddingRequest)
  | upsert (req : UpsertPoints)
  | search (req : SearchPoints)
  | createChatCompletion (req : ChatCompletionRequest)
  | createChatCompletionStream (req : ChatCompletionRequest)
deriving DecidableEq

/-- Whether a call goes to the chat-completion API (blocking or streaming). -/
def Event.isChat : Event → Bool
  | .createChatCompletion _ => true
  | .createChatCompletionStream _ => true
  | _ => false

/-- The limits of the vector-store searches among the calls, in order. -/
def searchLimits : List Event → List Nat
  | [] => []
  | .search req :: rest => req.Limit :: searchLimits rest
  | _ :: rest => searchLimits rest

/-- A run of an operation: the external calls it made, in order, and how it ended. -/
structure Run (α : Type) where
  trace : List Event
  result : Result α
deriving DecidableEq

/-- A run that makes no call and returns `a`. -/
def Run.ret {α : Type} (a : α) : Run α := { trace := [], result := .ok a }

/-- A run that makes no call and returns the error `msg`. -/
def Run.fail {α : Type} (msg : Bytes) : Run α := { trace := [], result := .error msg }

/-- A run that makes no call and panics. -/
def Run.crash {α : Type} (msg : Bytes) : Run α := { trace := [], result := .crash msg }

/-- Sequencing: the second part runs only when the first returned a value. -/
def Run.andThen {α β : Type} (r : Run α) (f : α → Run β) : Run β :=
  match r.result with
  | .ok a => { trace := r.trace ++ (f a).trace, result := (f a).result }
  | .error e => { trace := r.trace, result := .error e }
  | .crash e => { trace := r.trace, result := .crash e }

/-- One external call, recorded, with the collaborator's answer. -/
def Run.call {α : Type} (ev : Event) (answer : Except Bytes α) : Run α :=
  match answer with
  | .ok a => { trace := [ev], result := .ok a }
  | .error e => { trace := [ev], result := .error e }

/-- Rewrites a returned error as `fmt.Errorf(prefix + ": %w", err)` does. -/
def Run.wrapError {α : Type} (pre : Bytes) (r : Run α) : Run α :=
  match r.result with
  | .error e => { trace := r.trace, result := .error (pre ++ e) }
  | _ => r

/-- The struct `rag.Embedder`: its client, seen as the answer the embedding API
gives to each request (the embeddings of `resp.Data`, in order), and the
configured model. -/
structure Embedder where
  createEmbeddings : EmbeddingRequest → Except Bytes (List Embedding)
  model : Bytes

/-- The struct `rag.LLM`: its client, seen as the answers of the chat API (the
message contents of `resp.Choices`; for a stream, the responses received before
the stream ends, each with the delta contents of its choices), and the model. -/
structure LLM where
  createChatCompletion : ChatCompletionRequest → Except Bytes (List Bytes)
  createChatCompletionStream : ChatCompletionRequest → Except Bytes (List (List Bytes))
  model : Bytes

/-- The struct `rag.VectorStore`: its client, seen as the answers of the vector
database, the collection name and the dimension. -/
structure VectorStore where
  upsert : UpsertPoints → Except Bytes Unit
  search : SearchPoints → Except Bytes (List ScoredPoint)
  collection : Bytes
  dim : Int

/-- The struct `services.RAGService`, together with the file system `os.ReadFile`
reads from. -/
structure RAGService where
  embedder : Embedder
  llm : LLM
  store : VectorStore
  readFile : Bytes → Except Bytes Bytes

/-- The method `Embedder.EmbedText` (embedder.go, lines 31-43). -/
def Embedder.EmbedText (e : Embedder) (text : Bytes) : Run Embedding :=
  let req : EmbeddingRequest := { Model := e.model, Input := [text] }
  (Run.call (.createEmbeddings req) (e.createEmbeddings req)).andThen fun data =>
    match data with
    | [] => Run.fail (utf8 "no embedding returned")
    | first :: _ => Run.ret first

/-- The method `Embedder.EmbedTexts` (embedder.go, lines 45-58). -/
def Embedder.EmbedTexts (e : Embedder) (texts : List Bytes) : Run (List Embedding) :=
  let req : EmbeddingRequest := { Model := e.model, Input := texts }
  (Run.call (.createEmbeddings req) (e.createEmbeddings req)).andThen fun data =>
    Run.ret data

/-- Go's `strings.LastIndex(s, sep)` for a one-byte separator: the index of its
last occurrence, or -1. -/
def lastIndexByte : Bytes → Nat → Int
  | [], _ => -1
  | c :: cs, sep =>
    match lastIndexByte cs sep with
    | .negSucc _ => if c = sep then 0 else -1
    | .ofNat i => Int.ofNat (i + 1)

/-- Go's `strings.ToLower` on the ASCII letters. On the other bytes it is the
identity here; the lower-case forms of non-ASCII runes matter to no comparison
below, since the only ASCII letters among them are `i` and `k`, which no
extension of `ExtractTextFromFile` contains. -/
def toLower (s : Bytes) : Bytes :=
  s.map fun b => if 65 ≤ b ∧ b ≤ 90 then b + 32 else b

/-- The function `min` of embedder.go (lines 81-86). -/
def rag.min (a b : Nat) : Nat := if a < b then a else b

/-- The extensions of the first `case` of `ExtractTextFromFile`. -/
def plainTextExtensions : List Bytes :=
  [utf8 ".txt", utf8 ".md", utf8 ".json", utf8 ".yaml", utf8 ".yml", utf8 ".toml", utf8 ".go",
    utf8 ".py", utf8 ".java", utf8 ".js", utf8 ".ts", utf8 ".html", utf8 ".css", utf8 ".xml"]

/-- The function `ExtractTextFromFile` (embedder.go, lines 60-79) over the file
system `readFile`. The slice expression `path[strings.LastIndex(path, "."):]`
panics when the index is -1. -/
def ExtractTextFromFile (readFile : Bytes → Except Bytes Bytes) (path : Bytes) : Run Bytes :=
  (Run.call (.readFile path) (readFile path)).andThen fun data =>
    let content := data
    match lastIndexByte path 46 with
    | .negSucc _ => Run.crash (utf8 "slice bounds out of range [-1:]")
    | .ofNat i =>
      let ext := toLower (path.drop i)
      if ext ∈ plainTextExtensions then Run.ret content
      else if ext = utf8 ".pdf" then Run.ret (content.take (rag.min 10000 content.length))
      else Run.ret (content.take (rag.min 10000 content.length))

/-- Go's `filepath.Base` with `/` as the separator: the last element of the
path, after removal of the trailing separators; `.` for the empty path and `/`
for a path of separators only. -/
def filepathBase (path : Bytes) : Bytes :=
  if path = [] then utf8 "."
  else
    let stripped := (path.reverse.dropWhile (· = 47)).reverse
    let last := (stripped.reverse.takeWhile (· ≠ 47)).reverse
    if last = [] then utf8 "/" else last

/-- The loop of `IngestDocument` (lines 71-78) from index `i` on: one document
per chunk, with `embeddings[i]` as its vector; indexing past the end of
`embeddings` panics. -/
def buildDocuments (source : Bytes) (embeddings : List Embedding) :
    List Bytes → Nat → Result (List Document)
  | [], _ => .ok []
  | chunk :: rest, i =>
    match embeddings[i]? with
    | none => .crash (utf8 "index out of range")
    | some v =>
      match buildDocuments source embeddings rest (i + 1) with
      | .ok docs => .ok ({ Content := chunk, Source := source, Vector := v, Metadata := [] } :: docs)
      | .error e => .error e
      | .crash e => .crash e

/-- The points `AddDocuments` builds from the documents, numbered from `i + 1`. -/
def toPoints : List Document → Nat → List PointStruct
  | [], _ => []
  | doc :: rest, i =>
    { Id := i + 1, Vectors := doc.Vector, content := doc.Content, source := doc.Source,
      metadata := doc.Metadata } :: toPoints rest (i + 1)

/-- The method `VectorStore.AddDocuments` (qdrant.go, lines 59-84). -/
def VectorStore.AddDocuments (v : VectorStore) (docs : List Document) : Run Unit :=
  if docs.length = 0 then Run.ret ()
  else
    let req : UpsertPoints := { CollectionName := v.collection, Points := toPoints docs 0 }
    Run.call (.upsert req) (v.upsert req)

/-- The conversion `uint64(limit)` of a Go `int`. -/
def toUint64 (n : Int) : Nat := (n % 18446744073709551616).toNat

/-- The payload entry under `key` when it is a string, as the type assertion
`p[key].GetInterface().(string)` yields it. -/
def payloadString (p : List (Bytes × PayloadValue)) (key : Bytes) : Option Bytes :=
  match p.lookup key with
  | some (.str s) => some s
  | _ => none

/-- The search result `VectorStore.Search` builds from one scored point
(qdrant.go, lines 102-122). -/
def toSearchResult (r : ScoredPoint) : SearchResult :=
  match r.Payload with
  | none => { Content := [], Source := [], Score := r.Score, Metadata := [] }
  | some p =>
    { Content := (payloadString p (utf8 "content")).getD []
      Source := (payloadString p (utf8 "source")).getD []
      Score := r.Score
      Metadata :=
        match payloadString p (utf8 "metadata") with
        | some m => [(utf8 "raw", m)]
        | none => [] }

/-- The method `VectorStore.Search` (qdrant.go, lines 86-124). -/
def VectorStore.Search (v : VectorStore) (query : Embedding) (limit : Int) :
    Run (List SearchResult) :=
  let req : SearchPoints :=
    { CollectionName := v.collection, QueryVector := query, Limit := toUint64 limit,
      WithPayload := true }
  (Run.call (.search req) (v.search req)).andThen fun resp =>
    Run.ret (resp.map toSearchResult)

/-- The messages both chat methods send (llm.go, lines 33-47 and 60-74): the
system prompt first when it is not empty, then the given messages. -/
def chatMessages (messages : List ChatMessage) (systemPrompt : Bytes) :
    List ChatCompletionMessage :=
  (if systemPrompt ≠ [] then [{ Role := utf8 "system", Content := systemPrompt }] else [])
    ++ messages.map fun m => { Role := m.Role, Content := m.Content }

/-- The method `LLM.Chat` (llm.go, lines 32-57); `resp.Choices[0]` panics on a
response without choices. -/
def LLM.Chat (l : LLM) (messages : List ChatMessage) (systemPrompt : Bytes) : Run Bytes :=
  let req : ChatCompletionRequest :=
    { Model := l.model, Messages := chatMessages messages systemPrompt }
  (Run.call (.createChatCompletion req) (l.createChatCompletion req)).andThen fun choices =>
    match choices with
    | [] => Run.crash (utf8 "index out of range")
    | first :: _ => Run.ret first

/-- The method `LLM.StreamChat` (llm.go, lines 59-100). The channel it returns
is the list of the fragments sent on it: of every response received, the delta
of its first choice when it has one. -/
def LLM.StreamChat (l : LLM) (messages : List ChatMessage) (systemPrompt : Bytes) :
    Run (List Bytes) :=
  let req : ChatCompletionRequest :=
    { Model := l.model, Messages := chatMessages messages systemPrompt }
  (Run.call (.createChatCompletionStream req) (l.createChatCompletionStream req)).andThen
    fun responses => Run.ret (responses.filterMap fun choices => choices.head?)

/-- The method `RAGService.IngestDocument` (rag_service.go, lines 54-82). -/
def RAGService.IngestDocument (s : RAGService) (filePath : Bytes) : Run Unit :=
  (Run.wrapError (utf8 "failed to read file: ")
      (ExtractTextFromFile s.readFile filePath)).andThen fun content =>
    let chunks := splitIntoChunks content
    (Run.wrapError (utf8 "failed to embed texts: ") (s.embedder.EmbedTexts chunks)).andThen
      fun embeddings =>
        match buildDocuments (filepathBase filePath) embeddings chunks 0 with
        | .ok docs => s.store.AddDocuments docs
        | .error e => Run.fail e
        | .crash e => Run.crash e

/-- The context block of the query pipeline (lines 139-142 and 172-175): each
result from rank `i + 1` on as `[rank] source\ncontent\n\n`. -/
def buildContext : List SearchResult → Nat → Bytes
  | [], _ => []
  | r :: rest, i =>
    utf8 "[" ++ utf8 (toString (i + 1)) ++ utf8 "] " ++ r.Source ++ utf8 "\n" ++ r.Content
      ++ utf8 "\n\n" ++ buildContext rest (i + 1)

/-- The system prompt of `Query` and `StreamQuery`. -/
def systemPrompt : Bytes :=
  utf8 "你是一个知识库助手，请根据提供的上下文回答用户的问题。\n如果上下文中没有相关信息，请明确说明。\n请用中文回答。"

/-- The user message of `Query` and `StreamQuery` (lines 149 and 181). -/
def userMessage (context question : Bytes) : Bytes :=
  utf8 "上下文:\n" ++ context ++ utf8 "\n\n问题: " ++ question

/-- The method `RAGService.Query` (rag_service.go, lines 122-159): the top
result (`none` for nil) and the answer, or an error. -/
def RAGService.Query (s : RAGService) (question : Bytes) (topK : Int) :
    Run (Option SearchResult × Bytes) :=
  (Run.wrapError (utf8 "failed to embed query: ") (s.embedder.EmbedText question)).andThen
    fun queryVec =>
      (Run.wrapError (utf8 "failed to search: ") (s.store.Search queryVec topK)).andThen
        fun results =>
          match results with
          | [] => Run.ret (none, utf8 "未找到相关文档")
          | top :: _ =>
            (Run.wrapError (utf8 "failed to chat: ")
                (s.llm.Chat [{ Role := utf8 "user",
                                Content := userMessage (buildContext results 0) question }]
                  systemPrompt)).andThen
              fun answer => Run.ret (some top, answer)

/-- The method `RAGService.StreamQuery` (rag_service.go, lines 161-186). -/
def RAGService.StreamQuery (s : RAGService) (question : Bytes) (topK : Int) : Run (List Bytes) :=
  (s.embedder.EmbedText question).andThen fun queryVec =>
    (s.store.Search queryVec topK).andThen fun results =>
      s.llm.StreamChat
        [{ Role := utf8 "user", Content := userMessage (buildContext results 0) question }]
        systemPrompt

/-- The request struct both query handlers bind the body to (api.go, lines
96-99 and 121-124). -/
structure QueryRequest where
  Question : Bytes
  TopK : Int
deriving DecidableEq

/-- What a handler writes: a JSON object with one entry, or an event stream. -/
inductive Response where
  | json (status : Nat) (key : Bytes) (value : Bytes)
  | eventStream (events : List Bytes)
deriving DecidableEq

/-- The struct `handlers.Handler`. -/
structure Handler where
  svc : RAGService

/-- The defaulting both query handlers apply to the bound `top_k`
(api.go, lines 105-107 and 130-132). -/
def defaultTopK (topK : Int) : Int := if topK ≤ 0 then 5 else topK

/-- The message of the error `ShouldBindJSON` returns when the field tagged
`binding:"required"` is absent or empty; the text is the validator's, not the
program's. -/
def requiredQuestionError : Bytes :=
  utf8 "Key: 'Question' Error:Field validation for 'Question' failed on the 'required' tag"

/-- The call `c.ShouldBindJSON(&req)` of both query handlers (api.go, lines 100
and 125), on what decoding the JSON body gives: the decoder's error, or the
decoded fields, an absent field left at its zero value. It fails with the
decoder's error, or with the error of the `required` tag when `question` is
empty, and otherwise binds the request. -/
def ShouldBindJSON (body : Except Bytes QueryRequest) : Except Bytes QueryRequest :=
  match body with
  | .error e => .error e
  | .ok req => if req.Question = [] then .error requiredQuestionError else .ok req

/-- The handler `Handler.Query` (api.go, lines 95-118): a body that does not
bind is answered with status 400 and no call; otherwise `top_k` is defaulted
and the service queried. -/
def Handler.Query (h : Handler) (body : Except Bytes QueryRequest) : Run Response :=
  match ShouldBindJSON body with
  | .error e => Run.ret (.json 400 (utf8 "error") e)
  | .ok req =>
    let r := h.svc.Query req.Question (defaultTopK req.TopK)
    match r.result with
    | .ok (_, answer) => { trace := r.trace, result := .ok (.json 200 (utf8 "answer") answer) }
    | .error e => { trace := r.trace, result := .ok (.json 500 (utf8 "error") e) }
    | .crash e => { trace := r.trace, result := .crash e }

/-- The handler `Handler.StreamQuery` (api.go, lines 120-149): a body that does
not bind is answered with status 400 and no call; otherwise `top_k` is
defaulted and the answer streamed, one event per fragment, then `[DONE]`. -/
def Handler.StreamQuery (h : Handler) (body : Except Bytes QueryRequest) : Run Response :=
  match ShouldBindJSON body with
  | .error e => Run.ret (.json 400 (utf8 "error") e)
  | .ok req =>
    let r := h.svc.StreamQuery req.Question (defaultTopK req.TopK)
    match r.result with
    | .ok stream =>
      { trace := r.trace, result := .ok (.eventStream (stream ++ [utf8 "[DONE]"])) }
    | .error e => { trace := r.trace, result := .ok (.json 500 (utf8 "error") e) }
    | .crash e => { trace := r.trace, result := .crash e }

/-- A service whose vector store holds nothing: every search succeeds with zero
results, every embedding call returns one vector, the chat API answers. -/
def emptyStoreService : RAGService :=
  { embedder := { createEmbeddings := fun _ => .ok [[0]], model := utf8 "embed" }
    llm :=
      { createChatCompletion := fun _ => .ok [utf8 "answer"]
        createChatCompletionStream := fun _ => .ok [[utf8 "answer"]]
        model := utf8 "chat" }
    store :=
      { upsert := fun _ => .ok (), search := fun _ => .ok [], collection := utf8 "c", dim := 1536 }
    readFile := fun _ => .error (utf8 "no such file") }

/-- A service whose embedding API answers every batch with an empty list of
embeddings, over a file system where every file reads as `hello`. -/
def emptyBatchService : RAGService :=
  { embedder := { createEmbeddings := fun _ => .ok [], model := utf8 "embed" }
    llm :=
      { createChatCompletion := fun _ => .ok [utf8 "answer"]
        createChatCompletionStream := fun _ => .ok [[utf8 "answer"]]
        model := utf8 "chat" }
    store :=
      { upsert := fun _ => .ok (), search := fun _ => .ok [], collection := utf8 "c", dim := 1536 }
    readFile := fun _ => .ok (utf8 "hello") }

/-! ## The chunker: properties -/

theorem splitLines_ne_nil (c : Bytes) : splitLines c ≠ [] := by
  induction c with
  | nil => simp [splitLines]
  | cons c cs ih =>
    unfold splitLines
    split
    · simp
    · split <;> simp

theorem joinLines_splitLines (c : Bytes) : joinLines (splitLines c) = c ++ [newline] := by
  induction c with
  | nil => simp [splitLines, joinLines]
  | cons c cs ih =>
    unfold splitLines
    split
    · next h => simp [joinLines, ih, h]
    · split
      · next h => exact absurd h (splitLines_ne_nil cs)
      · next l ls h =>
        rw [h] at ih
        simp [joinLines] at ih ⊢
        exact ih

theorem joinLines_append (a b : List Bytes) : joinLines (a ++ b) = joinLines a ++ joinLines b := by
  induction a with
  | nil => simp [joinLines]
  | cons x xs ih => simp [joinLines, ih]

theorem foldl_chunkStep (lines : List Bytes) (st : ChunkState) :
    (if ((lines.foldl chunkStep st).currentChunk.length > 0)
      then (lines.foldl chunkStep st).chunks ++ [(lines.foldl chunkStep st).currentChunk]
      else (lines.foldl chunkStep st).chunks)
      = st.chunks ++ chunkLoop st.currentChunk lines := by
  induction lines generalizing st with
  | nil => simp only [List.foldl_nil, chunkLoop]; split <;> simp
  | cons line rest ih =>
    rw [List.foldl_cons, ih, chunkLoop]
    by_cases h1 : st.currentChunk.length + line.length > chunkSize
    · by_cases h2 : st.currentChunk.length > 0
      · simp [chunkStep, h1, h2]
      · simp [chunkStep, h1, h2]
    · simp [chunkStep, h1]

theorem chunkLoop_ne_nil (lines : List Bytes) (cur : Bytes) (h : cur ≠ [] ∨ lines ≠ []) :
    chunkLoop cur lines ≠ [] := by
  induction lines generalizing cur with
  | nil =>
    have hc : cur ≠ [] := by simpa using h
    have : 0 < cur.length := List.length_pos.mpr hc
    simp [chunkLoop, this]
  | cons line rest ih =>
    rw [chunkLoop]
    split
    · simp
    · exact ih _ (Or.inl (by simp))

theorem splitIntoChunks_eq_chunkLoop (content : Bytes) :
    splitIntoChunks content = chunkLoop [] (splitLines content) := by
  have h := foldl_chunkStep (splitLines content) { chunks := [], currentChunk := [] }
  have hne := chunkLoop_ne_nil (splitLines content) [] (Or.inr (splitLines_ne_nil content))
  simp only [List.nil_append] at h
  unfold splitIntoChunks
  simp only [h]
  have : (chunkLoop [] (splitLines content)).length ≠ 0 := by
    simpa [List.length_eq_zero] using hne
  simp [this]

theorem chunkLoop_structure (lines : List Bytes) (cur : Bytes) (h : cur ≠ [] ∨ lines ≠ []) :
    ∃ g gs, lines = g ++ gs.flatten ∧ (∀ x ∈ gs, x ≠ []) ∧ (cur = [] → g ≠ []) ∧
      chunkLoop cur lines = (cur ++ joinLines g) :: buildChunks (cur ++ joinLines g) gs := by
  induction lines generalizing cur with
  | nil =>
    have hc : cur ≠ [] := by simpa using h
    have : 0 < cur.length := List.length_pos.mpr hc
    exact ⟨[], [], by simp, by simp, fun e => absurd e hc, by simp [chunkLoop, this, joinLines, buildChunks]⟩
  | cons line rest ih =>
    rw [chunkLoop]
    split
    · next hc =>
      obtain ⟨g, gs, hl, hgs, -, hloop⟩ := ih (overlapOf cur ++ line ++ [newline]) (Or.inl (by simp))
      refine ⟨[], (line :: g) :: gs, by simp [hl], ?_, ?_, ?_⟩
      · intro x hx
        rcases List.mem_cons.mp hx with rfl | hx
        · simp
        · exact hgs x hx
      · intro e; rw [e] at hc; simp at hc
      · simpa [joinLines, buildChunks] using hloop
    · next hc =>
      obtain ⟨g, gs, hl, hgs, -, hloop⟩ := ih (cur ++ line ++ [newline]) (Or.inl (by simp))
      refine ⟨line :: g, gs, by simp [hl], hgs, by simp, ?_⟩
      simpa [joinLines] using hloop

theorem overlapOf_nil : overlapOf [] = [] := by simp [overlapOf]

theorem splitIntoChunks_structure (content : Bytes) :
    ∃ groups : List (List Bytes), groups.flatten = splitLines content ∧ (∀ g ∈ groups, g ≠ []) ∧
      splitIntoChunks content = buildChunks [] groups := by
  obtain ⟨g, gs, hl, hgs, hg, hloop⟩ :=
    chunkLoop_structure (splitLines content) [] (Or.inr (splitLines_ne_nil content))
  refine ⟨g :: gs, by simp [hl], ?_, ?_⟩
  · intro x hx
    rcases List.mem_cons.mp hx with rfl | hx
    · exact hg rfl
    · exact hgs x hx
  · rw [splitIntoChunks_eq_chunkLoop, hloop]
    simp [buildChunks, overlapOf_nil]

theorem buildChunks_length (gs : List (List Bytes)) (p : Bytes) :
    (buildChunks p gs).length = gs.length := by
  induction gs generalizing p with
  | nil => rfl
  | cons g gs ih => simp [buildChunks, ih]

theorem buildChunks_consecutive (gs : List (List Bytes)) (p : Bytes) (i : Nat) (c d : Bytes)
    (g : List Bytes) (hc : (buildChunks p gs)[i]? = some c)
    (hd : (buildChunks p gs)[i + 1]? = some d) (hg : gs[i + 1]? = some g) :
    d = overlapOf c ++ joinLines g := by
  induction gs generalizing p i with
  | nil => simp at hg
  | cons g0 gs ih =>
    cases i with
    | zero =>
      cases gs with
      | nil => simp at hg
      | cons g1 gs =>
        simp [buildChunks] at hc hd hg
        subst hc hd hg
        rfl
    | succ i =>
      simp only [buildChunks, List.getElem?_cons_succ] at hc hd hg
      exact ih _ i hc hd hg

theorem mem_buildChunks (gs : List (List Bytes)) (p : Bytes) (g : List Bytes) (hg : g ∈ gs) :
    ∃ c ∈ buildChunks p gs, ∃ pre, c = pre ++ joinLines g := by
  induction gs generalizing p with
  | nil => simp at hg
  | cons g0 gs ih =>
    rcases List.mem_cons.mp hg with rfl | hg
    · exact ⟨_, by simp [buildChunks], overlapOf p, rfl⟩
    · obtain ⟨c, hc, pre, hpre⟩ := ih (overlapOf p ++ joinLines g0) hg
      exact ⟨c, by simp [buildChunks, hc], pre, hpre⟩

theorem joinLines_contains_line (g : List Bytes) (line : Bytes) (h : line ∈ g) :
    (line ++ [newline]) <:+: joinLines g := by
  obtain ⟨a, b, rfl⟩ := List.append_of_mem h
  refine ⟨joinLines a, joinLines b, ?_⟩
  simp [joinLines_append, joinLines]

theorem overlapOf_length (p : Bytes) : (overlapOf p).length = overlapLen p := by
  unfold overlapOf overlapLen chunkOverlap
  split
  · simp; omega
  · rfl

theorem stripOverlaps_buildChunks (gs : List (List Bytes)) (p : Bytes) :
    stripOverlaps p (buildChunks p gs) = joinLines gs.flatten := by
  induction gs generalizing p with
  | nil => simp [buildChunks, stripOverlaps, joinLines]
  | cons g gs ih =>
    simp only [buildChunks, stripOverlaps, ih, List.flatten_cons, joinLines_append]
    rw [← overlapOf_length, List.drop_left]

theorem reconstruct_buildChunks (gs : List (List Bytes)) :
    reconstruct (buildChunks [] gs) = joinLines gs.flatten := by
  cases gs with
  | nil => simp [buildChunks, reconstruct, joinLines]
  | cons g gs =>
    simp [buildChunks, reconstruct, stripOverlaps_buildChunks, overlapOf_nil, joinLines_append]

/-- Claim C1, amended: for every input text, the first chunk of `splitIntoChunks`
followed by every later chunk without the overlap carried over from its
predecessor (200 bytes when the predecessor is longer than 200, none otherwise)
is the input text followed by one newline byte. -/
theorem reconstruct_splitIntoChunks (content : Bytes) :
    reconstruct (splitIntoChunks content) = content ++ [newline] := by
  obtain ⟨groups, hfl, -, hsplit⟩ := splitIntoChunks_structure content
  rw [hsplit, reconstruct_buildChunks, hfl, joinLines_splitLines]

/-- Claim C1 as stated fails: from the one-byte input `a` the chunks rebuild
`a` followed by a newline, not the input itself. -/
theorem reconstruct_counterexample : reconstruct (splitIntoChunks [97]) ≠ [97] := by decide

/-- Claim C5: every line of the input, however long, is contained whole and
contiguous, followed by its newline, in at least one chunk of
`splitIntoChunks`; that chunk is longer than the line, so a line of more than
1000 bytes makes its chunk exceed 1000. -/
theorem line_in_chunk (content line : Bytes) (h : line ∈ splitLines content) :
    ∃ c ∈ splitIntoChunks content, (line ++ [newline]) <:+: c ∧ line.length < c.length := by
  obtain ⟨groups, hfl, -, hsplit⟩ := splitIntoChunks_structure content
  rw [← hfl] at h
  obtain ⟨g, hg, hline⟩ := List.mem_flatten.mp h
  obtain ⟨c, hc, pre, hpre⟩ := mem_buildChunks groups [] g hg
  have hin : (line ++ [newline]) <:+: c := by
    rw [hpre]
    exact (joinLines_contains_line g line hline).trans (List.suffix_append pre _).isInfix
  refine ⟨c, hsplit ▸ hc, hin, ?_⟩
  have := hin.length_le
  simp at this
  omega

theorem splitLines_of_no_newline (cs : Bytes) (h : newline ∉ cs) : splitLines cs = [cs] := by
  induction cs with
  | nil => rfl
  | cons c cs ih =>
    have hc : c ≠ newline := fun e => h (by simp [e])
    have hcs : newline ∉ cs := fun e => h (by simp [e])
    simp [splitLines, hc, ih hcs]

theorem splitLines_append_newline (l rest : Bytes) (h : newline ∉ l) :
    splitLines (l ++ newline :: rest) = l :: splitLines rest := by
  induction l with
  | nil => simp [splitLines]
  | cons c cs ih =>
    have hc : c ≠ newline := fun e => h (by simp [e])
    have hcs : newline ∉ cs := fun e => h (by simp [e])
    simp [splitLines, hc, ih hcs]

theorem chunkLoop_two (a b : Bytes) (h : a.length + 1 + b.length > chunkSize) :
    chunkLoop [] [a, b] = [a ++ [newline], overlapOf (a ++ [newline]) ++ b ++ [newline]] := by
  simp [chunkLoop, h]

theorem chunkLoop_single (lines : List Bytes) (cur : Bytes) (h : cur ≠ [] ∨ lines ≠ [])
    (hlen : cur.length + (joinLines lines).length ≤ chunkSize + 1) :
    chunkLoop cur lines = [cur ++ joinLines lines] := by
  induction lines generalizing cur with
  | nil =>
    have hc : cur ≠ [] := by simpa using h
    have : 0 < cur.length := List.length_pos.mpr hc
    simp [chunkLoop, this, joinLines]
  | cons line rest ih =>
    simp only [joinLines, List.length_append, List.length_cons] at hlen
    have hno : ¬ (cur.length + line.length > chunkSize ∧ cur.length > 0) := by omega
    rw [chunkLoop, if_neg hno, ih _ (Or.inl (by simp))]
    · simp [joinLines]
    · simp only [List.length_append, List.length_cons, List.length_nil]; omega

theorem splitIntoChunks_of_short (content : Bytes) (h : content.length ≤ chunkSize) :
    splitIntoChunks content = [content ++ [newline]] := by
  rw [splitIntoChunks_eq_chunkLoop,
    chunkLoop_single _ [] (Or.inr (splitLines_ne_nil content)), joinLines_splitLines]
  · rfl
  · rw [joinLines_splitLines]; simpa using h

theorem chunks_of_short_then_long_line :
    splitIntoChunks ([97, 10] ++ List.replicate 1000 98) = [[97, 10], List.replicate 1000 98 ++ [10]] := by
  have hs : splitLines ([97] ++ newline :: List.replicate 1000 98) = [[97], List.replicate 1000 98] := by
    rw [splitLines_append_newline _ _ (by decide),
      splitLines_of_no_newline _ (by intro h; exact absurd (List.eq_of_mem_replicate h) (by decide))]
  have hl : ([97] : Bytes).length + 1 + (List.replicate 1000 98).length > chunkSize := by
    rw [List.length_replicate]; decide
  have ho : overlapOf ([97] ++ [newline]) = [] := by decide
  have he : ([97, 10] : Bytes) ++ List.replicate 1000 98
      = [97] ++ newline :: List.replicate 1000 98 := by
    simp only [List.cons_append, List.nil_append, newline]
  rw [splitIntoChunks_eq_chunkLoop, he, hs, chunkLoop_two _ _ hl, ho, List.nil_append]
  simp only [List.singleton_append, newline]

/-- Claim C2 as stated fails: on `a\n` followed by a line of 1000 bytes `b` the
first chunk is the two bytes `a\n`, and its last `min 200 2` bytes are not the
first two bytes of the second chunk. -/
theorem overlap_min_counterexample :
    ∃ c d, (splitIntoChunks ([97, 10] ++ List.replicate 1000 98))[0]? = some c ∧
      (splitIntoChunks ([97, 10] ++ List.replicate 1000 98))[1]? = some d ∧
      c.drop (c.length - min 200 c.length) ≠ d.take (min 200 c.length) := by
  refine ⟨[97, 10], List.replicate 1000 98 ++ [10], ?_, ?_, ?_⟩
  · rw [chunks_of_short_then_long_line]; rfl
  · rw [chunks_of_short_then_long_line]; rfl
  · have hr : List.replicate 1000 98 = 98 :: 98 :: List.replicate 998 98 := rfl
    rw [hr]
    decide

/-- Claim C2, amended: the lines of the input fall into consecutive non-empty
groups, one per chunk, and every chunk after the first is the last 200 bytes of
its predecessor when the predecessor is longer than 200 bytes, nothing of it
otherwise, followed by the lines of its own group, each with its newline. -/
theorem splitIntoChunks_overlap (content : Bytes) :
    ∃ groups : List (List Bytes),
      groups.flatten = splitLines content ∧ (∀ g ∈ groups, g ≠ []) ∧
      groups.length = (splitIntoChunks content).length ∧
      ∀ (i : Nat) (c d : Bytes) (g : List Bytes),
        (splitIntoChunks content)[i]? = some c → (splitIntoChunks content)[i + 1]? = some d →
        groups[i + 1]? = some g →
        d = (if c.length > 200 then c.drop (c.length - 200) else []) ++ joinLines g := by
  obtain ⟨groups, hfl, hne, hsplit⟩ := splitIntoChunks_structure content
  refine ⟨groups, hfl, hne, by rw [hsplit, buildChunks_length], ?_⟩
  intro i c d g hc hd hg
  rw [hsplit] at hc hd
  exact buildChunks_consecutive groups [] i c d g hc hd hg

/-- Claim C2, amended, at the input of two lines of 900 bytes, which has two
chunks. -/
theorem splitIntoChunks_overlap_witness :
    ∃ groups : List (List Bytes),
      groups.flatten = splitLines (List.replicate 900 97 ++ 10 :: List.replicate 900 98) ∧
      (∀ g ∈ groups, g ≠ []) ∧
      groups.length =
        (splitIntoChunks (List.replicate 900 97 ++ 10 :: List.replicate 900 98)).length ∧
      ∀ (i : Nat) (c d : Bytes) (g : List Bytes),
        (splitIntoChunks (List.replicate 900 97 ++ 10 :: List.replicate 900 98))[i]? = some c →
        (splitIntoChunks (List.replicate 900 97 ++ 10 :: List.replicate 900 98))[i + 1]? = some d →
        groups[i + 1]? = some g →
        d = (if c.length > 200 then c.drop (c.length - 200) else []) ++ joinLines g :=
  splitIntoChunks_overlap (List.replicate 900 97 ++ 10 :: List.replicate 900 98)

theorem replicate_no_newline (n b : Nat) (hb : b ≠ newline) : newline ∉ List.replicate n b :=
  fun h => hb (List.eq_of_mem_replicate h).symm

theorem splitIntoChunks_two_long_lines :
    splitLines (List.replicate 900 97 ++ 10 :: List.replicate 900 98)
        = [List.replicate 900 97, List.replicate 900 98] ∧
      splitIntoChunks (List.replicate 900 97 ++ 10 :: List.replicate 900 98)
        = [List.replicate 900 97 ++ [newline],
            overlapOf (List.replicate 900 97 ++ [newline]) ++ List.replicate 900 98 ++ [newline]] := by
  have hs : splitLines (List.replicate 900 97 ++ newline :: List.replicate 900 98)
      = [List.replicate 900 97, List.replicate 900 98] := by
    rw [splitLines_append_newline _ _ (replicate_no_newline 900 97 (by decide)),
      splitLines_of_no_newline _ (replicate_no_newline 900 98 (by decide))]
  have hl : (List.replicate 900 97).length + 1 + (List.replicate 900 98).length > chunkSize := by
    rw [List.length_replicate, List.length_replicate]; decide
  refine ⟨hs, ?_⟩
  rw [splitIntoChunks_eq_chunkLoop]
  show chunkLoop [] (splitLines (List.replicate 900 97 ++ newline :: List.replicate 900 98)) = _
  rw [hs, chunkLoop_two _ _ hl]

/-- Claim C3 as stated fails: the input of 1000 bytes `a` has one line, of 1000
bytes, and its only chunk has 1001 bytes; the input of two lines of 900 bytes
has a chunk of 1101 bytes, the 200 bytes of overlap, the second line and its
newline. -/
theorem chunk_longer_than_target :
    ((∀ line ∈ splitLines (List.replicate 1000 97), line.length ≤ 1000) ∧
      ∃ c ∈ splitIntoChunks (List.replicate 1000 97), c.length = 1001) ∧
    ((∀ line ∈ splitLines (List.replicate 900 97 ++ 10 :: List.replicate 900 98),
        line.length ≤ 1000) ∧
      ∃ c ∈ splitIntoChunks (List.replicate 900 97 ++ 10 :: List.replicate 900 98),
        c.length = 1101) := by
  have hs : splitLines (List.replicate 1000 97) = [List.replicate 1000 97] :=
    splitLines_of_no_newline _ (replicate_no_newline 1000 97 (by decide))
  have hc : splitIntoChunks (List.replicate 1000 97) = [List.replicate 1000 97 ++ [10]] :=
    splitIntoChunks_of_short _ (by rw [List.length_replicate]; decide)
  obtain ⟨hs2, hc2⟩ := splitIntoChunks_two_long_lines
  refine ⟨⟨?_, ?_⟩, ⟨?_, ?_⟩⟩
  · intro line hline
    rw [hs, List.mem_singleton] at hline
    rw [hline, List.length_replicate]
  · refine ⟨_, by rw [hc]; exact List.mem_singleton.mpr rfl, ?_⟩
    rw [List.length_append, List.length_replicate]; rfl
  · intro line hline
    rw [hs2] at hline
    rcases List.mem_cons.mp hline with rfl | hline
    · rw [List.length_replicate]; decide
    · rw [List.mem_singleton] at hline
      rw [hline, List.length_replicate]; decide
  · refine ⟨_, by rw [hc2]; exact List.mem_cons_of_mem _ (List.mem_singleton.mpr rfl), ?_⟩
    have ho : overlapLen (List.replicate 900 97 ++ [newline]) = 200 := by
      unfold overlapLen
      rw [List.length_append, List.length_replicate]
      rfl
    rw [List.length_append, List.length_append, overlapOf_length, ho, List.length_replicate]
    rfl

/-- On the empty input the loop sees one empty line and the only chunk is a
newline; the fallback of lines 116-118 is not reached. -/
theorem splitIntoChunks_nil : splitIntoChunks [] = [[newline]] := by decide

/-- Claim C4 as stated fails: the chunk returned for the input `a` is not `a`,
and the chunk returned for the empty input is not the empty string. -/
theorem short_input_counterexample : splitIntoChunks [97] ≠ [[97]] ∧ splitIntoChunks [] ≠ [[]] := by
  decide

/-- Claim C4, amended: for every non-empty input text shorter than 1000 bytes
`splitIntoChunks` returns exactly one chunk, the input followed by one newline
byte. -/
theorem splitIntoChunks_short (content : Bytes) (_hne : content ≠ []) (h : content.length < 1000) :
    splitIntoChunks content = [content ++ [newline]] :=
  splitIntoChunks_of_short content (by unfold chunkSize; omega)

/-- Claim C4, amended, at the input `hi`. -/
theorem splitIntoChunks_short_witness :
    ([104, 105] : Bytes) ≠ [] ∧ ([104, 105] : Bytes).length < 1000 ∧
      splitIntoChunks [104, 105] = [[104, 105] ++ [newline]] :=
  ⟨by decide, by decide, splitIntoChunks_short [104, 105] (by decide) (by decide)⟩

/-- Claim C5 at the input `a\nb` and its second line `b`. -/
theorem line_in_chunk_witness :
    ([98] : Bytes) ∈ splitLines [97, 10, 98] ∧
      ∃ c ∈ splitIntoChunks [97, 10, 98], ([98] ++ [newline]) <:+: c ∧ ([98] : Bytes).length < c.length :=
  ⟨by decide, line_in_chunk [97, 10, 98] [98] (by decide)⟩

theorem overlapOf_length_le (p : Bytes) : (overlapOf p).length ≤ 200 := by
  rw [overlapOf_length]; unfold overlapLen; split <;> omega

theorem chunkLoop_bound (all lines : List Bytes) (cur : Bytes) (hsub : ∀ l ∈ lines, l ∈ all)
    (hcur : cur.length ≤ chunkSize + 1 ∨ ∃ line ∈ all, 800 < line.length ∧
      ∃ ov : Bytes, ov.length ≤ 200 ∧ cur = ov ++ line ++ [newline]) :
    ∀ c ∈ chunkLoop cur lines, c.length ≤ chunkSize + 1 ∨ ∃ line ∈ all, 800 < line.length ∧
      ∃ ov : Bytes, ov.length ≤ 200 ∧ c = ov ++ line ++ [newline] := by
  induction lines generalizing cur with
  | nil =>
    intro c hc
    unfold chunkLoop at hc
    split at hc
    · rw [List.mem_singleton] at hc; rw [hc]; exact hcur
    · simp at hc
  | cons line rest ih =>
    have hline : line ∈ all := hsub line (by simp)
    have hrest : ∀ l ∈ rest, l ∈ all := fun l hl => hsub l (by simp [hl])
    intro c hc
    rw [chunkLoop] at hc
    split at hc
    · next hemit =>
      rcases List.mem_cons.mp hc with rfl | hc
      · exact hcur
      · refine ih _ hrest ?_ c hc
        by_cases h800 : 800 < line.length
        · exact Or.inr ⟨line, hline, h800, overlapOf cur, overlapOf_length_le cur, rfl⟩
        · left
          have := overlapOf_length_le cur
          simp only [List.length_append, List.length_cons, List.length_nil, chunkSize]
          omega
    · next hno =>
      refine ih _ hrest ?_ c hc
      by_cases h0 : cur.length = 0
      · have hnil : cur = [] := List.length_eq_zero.mp h0
        subst hnil
        by_cases h800 : 800 < line.length
        · exact Or.inr ⟨line, hline, h800, [], by simp, rfl⟩
        · left
          simp only [List.length_append, List.length_cons, List.length_nil, chunkSize]
          omega
      · left
        simp only [List.length_append, List.length_cons, List.length_nil]
        omega

/-- Claim C3, amended: every chunk of `splitIntoChunks` has at most 1001 bytes,
unless it consists of at most 200 bytes of carried overlap followed by a single
line of more than 800 bytes and its newline; in particular no chunk is longer
than 1001 bytes when every line of the input has at most 800 bytes. -/
theorem chunk_length_bound (content c : Bytes) (hc : c ∈ splitIntoChunks content) :
    (c.length ≤ 1001 ∨ ∃ line ∈ splitLines content, 800 < line.length ∧
        ∃ ov : Bytes, ov.length ≤ 200 ∧ c = ov ++ line ++ [newline]) ∧
      ((∀ line ∈ splitLines content, line.length ≤ 800) → c.length ≤ 1001) := by
  rw [splitIntoChunks_eq_chunkLoop] at hc
  have h := chunkLoop_bound (splitLines content) (splitLines content) [] (fun _ hl => hl)
    (Or.inl (by simp)) c hc
  refine ⟨h, fun hall => ?_⟩
  rcases h with h | ⟨line, hline, h800, -⟩
  · exact h
  · have := hall line hline
    omega

/-- Claim C3, amended, at the input `a` and its chunk `a\n`. -/
theorem chunk_length_bound_witness :
    ([97, 10] : Bytes) ∈ splitIntoChunks [97] ∧
      ((([97, 10] : Bytes).length ≤ 1001 ∨ ∃ line ∈ splitLines [97], 800 < line.length ∧
          ∃ ov : Bytes, ov.length ≤ 200 ∧ ([97, 10] : Bytes) = ov ++ line ++ [newline]) ∧
        ((∀ line ∈ splitLines [97], line.length ≤ 800) → ([97, 10] : Bytes).length ≤ 1001)) :=
  ⟨by decide, chunk_length_bound [97] [97, 10] (by decide)⟩

theorem overlapOf_of_long (c : Bytes) (h : 200 < c.length) :
    overlapOf c = c.drop (c.length - 200) := by
  unfold overlapOf chunkOverlap
  rw [if_pos h]

/-- Claim C11: for consecutive chunks `c`, `d` of `splitIntoChunks`, when `c` is
longer than 200 bytes, `d` begins with exactly the last 200 bytes of `c`, and a
whole line of the input with its newline comes right after them. -/
theorem next_chunk_starts_with_overlap (content : Bytes) (i : Nat) (c d : Bytes)
    (hc : (splitIntoChunks content)[i]? = some c)
    (hd : (splitIntoChunks content)[i + 1]? = some d)
    (hlen : 200 < c.length) :
    d.take 200 = c.drop (c.length - 200) ∧ (c.drop (c.length - 200)).length = 200 ∧
      ∃ line ∈ splitLines content, (c.drop (c.length - 200) ++ line ++ [newline]) <+: d := by
  obtain ⟨groups, hfl, hne, hsplit⟩ := splitIntoChunks_structure content
  rw [hsplit] at hc hd
  have hi : i + 1 < groups.length := by
    have := (List.getElem?_eq_some_iff.mp hd).1
    rwa [buildChunks_length] at this
  have hg : groups[i + 1]? = some groups[i + 1] := List.getElem?_eq_getElem hi
  have hmem : groups[i + 1] ∈ groups := List.getElem_mem hi
  have hd2 := buildChunks_consecutive groups [] i c d groups[i + 1] hc hd hg
  rw [overlapOf_of_long c hlen] at hd2
  have hl : (c.drop (c.length - 200)).length = 200 := by
    rw [List.length_drop]; omega
  refine ⟨?_, hl, ?_⟩
  · rw [hd2, List.take_append_of_le_length (by omega), List.take_of_length_le (by omega)]
  · cases hgs : groups[i + 1] with
    | nil => exact absurd hgs (hne _ hmem)
    | cons line rest =>
      have hline : line ∈ splitLines content := by
        rw [← hfl]
        exact List.mem_flatten.mpr ⟨groups[i + 1], hmem, by rw [hgs]; simp⟩
      refine ⟨line, hline, joinLines rest, ?_⟩
      rw [hd2, hgs]
      simp [joinLines]

/-- Claim C11 at the input of two lines of 900 bytes: the first chunk has 901
bytes and the second begins with its last 200 bytes. -/
theorem next_chunk_starts_with_overlap_witness :
    (splitIntoChunks (List.replicate 900 97 ++ 10 :: List.replicate 900 98))[0]?
        = some (List.replicate 900 97 ++ [newline]) ∧
      200 < (List.replicate 900 97 ++ [newline]).length ∧
      (overlapOf (List.replicate 900 97 ++ [newline]) ++ List.replicate 900 98 ++ [newline]).take 200
        = (List.replicate 900 97 ++ [newline]).drop
            ((List.replicate 900 97 ++ [newline]).length - 200) := by
  have hc : (splitIntoChunks (List.replicate 900 97 ++ 10 :: List.replicate 900 98))[0]?
      = some (List.replicate 900 97 ++ [newline]) := by
    rw [splitIntoChunks_two_long_lines.2]; rfl
  have hd : (splitIntoChunks (List.replicate 900 97 ++ 10 :: List.replicate 900 98))[0 + 1]?
      = some (overlapOf (List.replicate 900 97 ++ [newline]) ++ List.replicate 900 98
          ++ [newline]) := by
    rw [splitIntoChunks_two_long_lines.2]; rfl
  have hlen : 200 < (List.replicate 900 97 ++ [newline]).length := by
    rw [List.length_append, List.length_replicate]; decide
  have h := next_chunk_starts_with_overlap _ 0 _ _ hc hd hlen
  exact ⟨hc, hlen, h.1⟩

/-! ## The pipelines: properties -/

theorem Run.andThen_of_ok {α β : Type} (r : Run α) (f : α → Run β) (a : α)
    (h : r.result = .ok a) :
    r.andThen f = { trace := r.trace ++ (f a).trace, result := (f a).result } := by
  simp [Run.andThen, h]

theorem Run.wrapError_of_ok {α : Type} (pre : Bytes) (r : Run α) (a : α) (h : r.result = .ok a) :
    Run.wrapError pre r = r := by
  simp [Run.wrapError, h]

theorem Run.wrapError_trace {α : Type} (pre : Bytes) (r : Run α) :
    (Run.wrapError pre r).trace = r.trace := by
  unfold Run.wrapError; split <;> rfl

theorem Run.call_trace {α : Type} (ev : Event) (answer : Except Bytes α) :
    (Run.call ev answer).trace = [ev] := by
  unfold Run.call; split <;> rfl

theorem searchLimits_append (a b : List Event) :
    searchLimits (a ++ b) = searchLimits a ++ searchLimits b := by
  induction a with
  | nil => rfl
  | cons e a ih => cases e <;> simp [searchLimits, ih]

theorem Run.andThen_trace {α β : Type} (r : Run α) (f : α → Run β) :
    (r.andThen f).trace =
      r.trace ++ (match r.result with | .ok a => (f a).trace | _ => []) := by
  unfold Run.andThen
  split <;> simp [*]

theorem Chat_trace (l : LLM) (messages : List ChatMessage) (sp : Bytes) :
    (l.Chat messages sp).trace =
      [.createChatCompletion { Model := l.model, Messages := chatMessages messages sp }] := by
  unfold LLM.Chat
  dsimp only
  generalize l.createChatCompletion _ = answer
  cases answer with
  | error err => rfl
  | ok data => cases data <;> rfl

theorem StreamChat_trace (l : LLM) (messages : List ChatMessage) (sp : Bytes) :
    (l.StreamChat messages sp).trace =
      [.createChatCompletionStream { Model := l.model, Messages := chatMessages messages sp }] := by
  unfold LLM.StreamChat
  dsimp only
  generalize l.createChatCompletionStream _ = answer
  cases answer with
  | error err => rfl
  | ok data => rfl

theorem EmbedText_trace (e : Embedder) (text : Bytes) :
    (e.EmbedText text).trace = [.createEmbeddings { Model := e.model, Input := [text] }] := by
  unfold Embedder.EmbedText
  dsimp only
  generalize e.createEmbeddings _ = answer
  cases answer with
  | error err => rfl
  | ok data => cases data <;> rfl

theorem Search_trace (v : VectorStore) (query : Embedding) (limit : Int) :
    (v.Search query limit).trace =
      [.search { CollectionName := v.collection, QueryVector := query, Limit := toUint64 limit,
                 WithPayload := true }] := by
  unfold VectorStore.Search
  dsimp only
  generalize v.search _ = answer
  cases answer with
  | error err => rfl
  | ok data => rfl

/-- Claim C6: when embedding the question succeeds and the vector-store search
succeeds with zero results, `RAGService.Query` returns no top result, no error
and the answer `未找到相关文档`, and none of its calls goes to the chat API. -/
theorem Query_no_results (s : RAGService) (question : Bytes) (topK : Int) (queryVec : Embedding)
    (hembed : (s.embedder.EmbedText question).result = .ok queryVec)
    (hsearch : (s.store.Search queryVec topK).result = .ok []) :
    (s.Query question topK).result = .ok (none, utf8 "未找到相关文档") ∧
      ∀ e ∈ (s.Query question topK).trace, e.isChat = false := by
  have hq : s.Query question topK =
      { trace := (s.embedder.EmbedText question).trace ++ ((s.store.Search queryVec topK).trace ++ [])
        result := .ok (none, utf8 "未找到相关文档") } := by
    unfold RAGService.Query
    rw [Run.wrapError_of_ok _ _ _ hembed, Run.andThen_of_ok _ _ _ hembed,
      Run.wrapError_of_ok _ _ _ hsearch, Run.andThen_of_ok _ _ _ hsearch]
    rfl
  rw [hq]
  refine ⟨rfl, ?_⟩
  intro e he
  simp only [EmbedText_trace, Search_trace, List.append_nil, List.cons_append, List.nil_append,
    List.mem_cons, List.mem_singleton, List.not_mem_nil, or_false] at he
  rcases he with rfl | rfl <;> rfl

/-- Claim C6 at the question `q` with `topK = 3` over an empty store. -/
theorem Query_no_results_witness :
    (emptyStoreService.embedder.EmbedText (utf8 "q")).result = .ok [0] ∧
      (emptyStoreService.store.Search [0] 3).result = .ok [] ∧
      (emptyStoreService.Query (utf8 "q") 3).result = .ok (none, utf8 "未找到相关文档") ∧
      ∀ e ∈ (emptyStoreService.Query (utf8 "q") 3).trace, e.isChat = false :=
  ⟨rfl, rfl, Query_no_results emptyStoreService (utf8 "q") 3 [0] rfl rfl⟩

/-- With zero search results `StreamQuery` goes on to the streaming chat call,
with an empty context block: lines 167-185 have no check of `len(results)`. -/
theorem StreamQuery_of_empty_search (s : RAGService) (question : Bytes) (topK : Int)
    (queryVec : Embedding)
    (hembed : (s.embedder.EmbedText question).result = .ok queryVec)
    (hsearch : (s.store.Search queryVec topK).result = .ok []) :
    s.StreamQuery question topK =
      { trace := (s.embedder.EmbedText question).trace ++ ((s.store.Search queryVec topK).trace ++
          [.createChatCompletionStream
            { Model := s.llm.model
              Messages := chatMessages
                [{ Role := utf8 "user", Content := userMessage [] question }] systemPrompt }])
        result := (s.llm.StreamChat
          [{ Role := utf8 "user", Content := userMessage [] question }] systemPrompt).result } := by
  unfold RAGService.StreamQuery
  rw [Run.andThen_of_ok _ _ _ hembed, Run.andThen_of_ok _ _ _ hsearch, StreamChat_trace]
  rfl

/-- Claim C7 fails on the code: over an empty store, where embedding the
question and the search succeed and the search has zero results,
`RAGService.StreamQuery` still calls the streaming chat API, with an empty
context block, and its output is what the chat API streams, not the no-results
message. -/
theorem StreamQuery_empty_search_calls_chat :
    (emptyStoreService.embedder.EmbedText (utf8 "q")).result = .ok [0] ∧
      (emptyStoreService.store.Search [0] 3).result = .ok [] ∧
      (emptyStoreService.StreamQuery (utf8 "q") 3).trace =
        [ .createEmbeddings { Model := utf8 "embed", Input := [utf8 "q"] },
          .search { CollectionName := utf8 "c", QueryVector := [0], Limit := 3, WithPayload := true },
          .createChatCompletionStream
            { Model := utf8 "chat"
              Messages :=
                [ { Role := utf8 "system", Content := systemPrompt },
                  { Role := utf8 "user", Content := userMessage [] (utf8 "q") } ] } ] ∧
      (emptyStoreService.StreamQuery (utf8 "q") 3).result = .ok [utf8 "answer"] ∧
      (emptyStoreService.StreamQuery (utf8 "q") 3).result ≠ .ok [utf8 "未找到相关文档"] := by
  have hr : (emptyStoreService.StreamQuery (utf8 "q") 3).result = .ok [utf8 "answer"] := rfl
  refine ⟨rfl, rfl, rfl, hr, ?_⟩
  rw [hr]
  decide

theorem Query_searchLimits (s : RAGService) (question : Bytes) (topK : Int) (v : Embedding)
    (hembed : (s.embedder.EmbedText question).result = .ok v) :
    searchLimits (s.Query question topK).trace = [toUint64 topK] := by
  unfold RAGService.Query
  rw [Run.wrapError_of_ok _ _ _ hembed, Run.andThen_of_ok _ _ _ hembed]
  simp only [searchLimits_append, EmbedText_trace, Run.andThen_trace, Run.wrapError_trace,
    Search_trace]
  cases hres : (Run.wrapError (utf8 "failed to search: ") (s.store.Search v topK)).result with
  | ok results =>
    cases results with
    | nil => simp [searchLimits, Run.ret]
    | cons top rest =>
      simp only [Run.andThen_trace, Run.wrapError_trace, Chat_trace, searchLimits_append]
      cases (Run.wrapError (utf8 "failed to chat: ")
        (s.llm.Chat [{ Role := utf8 "user",
                        Content := userMessage (buildContext (top :: rest) 0) question }]
          systemPrompt)).result <;> simp [searchLimits, Run.ret]
  | error e => simp [searchLimits]
  | crash e => simp [searchLimits]

theorem StreamQuery_searchLimits (s : RAGService) (question : Bytes) (topK : Int) (v : Embedding)
    (hembed : (s.embedder.EmbedText question).result = .ok v) :
    searchLimits (s.StreamQuery question topK).trace = [toUint64 topK] := by
  unfold RAGService.StreamQuery
  rw [Run.andThen_of_ok _ _ _ hembed]
  simp only [searchLimits_append, EmbedText_trace, Run.andThen_trace, Search_trace]
  cases (s.store.Search v topK).result <;> simp [searchLimits, StreamChat_trace]

theorem ShouldBindJSON_of_question (req : QueryRequest) (hq : req.Question ≠ []) :
    ShouldBindJSON (.ok req) = .ok req := by
  show (if req.Question = [] then Except.error requiredQuestionError else Except.ok req) = _
  rw [if_neg hq]

/-- A body that does not bind, an empty `question` included, is answered with
status 400 by both query handlers, without any call. -/
theorem Handler.query_of_bind_error (h : Handler) (body : Except Bytes QueryRequest) (e : Bytes)
    (hbind : ShouldBindJSON body = .error e) :
    h.Query body = { trace := [], result := .ok (.json 400 (utf8 "error") e) } ∧
      h.StreamQuery body = { trace := [], result := .ok (.json 400 (utf8 "error") e) } := by
  unfold Handler.Query Handler.StreamQuery
  rw [hbind]
  exact ⟨rfl, rfl⟩

theorem Handler.Query_trace (h : Handler) (req : QueryRequest) (hq : req.Question ≠ []) :
    (h.Query (.ok req)).trace = (h.svc.Query req.Question (defaultTopK req.TopK)).trace := by
  unfold Handler.Query
  rw [ShouldBindJSON_of_question req hq]
  dsimp only
  split <;> rfl

theorem Handler.StreamQuery_trace (h : Handler) (req : QueryRequest) (hq : req.Question ≠ []) :
    (h.StreamQuery (.ok req)).trace
      = (h.svc.StreamQuery req.Question (defaultTopK req.TopK)).trace := by
  unfold Handler.StreamQuery
  rw [ShouldBindJSON_of_question req hq]
  dsimp only
  split <;> rfl

theorem toUint64_of_nonneg (n : Int) (h0 : 0 ≤ n) (h1 : n < 9223372036854775808) :
    toUint64 n = n.toNat := by
  unfold toUint64
  rw [Int.emod_eq_of_lt h0 (by omega)]

theorem toUint64_defaultTopK (topK : Int) (h1 : topK < 9223372036854775808) :
    toUint64 (defaultTopK topK) = if topK ≤ 0 then 5 else topK.toNat := by
  unfold defaultTopK
  split
  · rfl
  · exact toUint64_of_nonneg topK (by omega) h1

/-- Claim C8 as stated fails: `RAGService.Query` and `RAGService.StreamQuery`
called with `topK = 0` search with limit 0, not 5. -/
theorem service_limit_counterexample :
    searchLimits (emptyStoreService.Query (utf8 "q") 0).trace = [0] ∧
      searchLimits (emptyStoreService.StreamQuery (utf8 "q") 0).trace = [0] ∧
      searchLimits (emptyStoreService.Query (utf8 "q") 0).trace ≠ [5] ∧
      searchLimits (emptyStoreService.StreamQuery (utf8 "q") 0).trace ≠ [5] := by
  have h1 : searchLimits (emptyStoreService.Query (utf8 "q") 0).trace = [0] := rfl
  have h2 : searchLimits (emptyStoreService.StreamQuery (utf8 "q") 0).trace = [0] := rfl
  refine ⟨h1, h2, ?_, ?_⟩
  · rw [h1]; decide
  · rw [h2]; decide

/-- Claim C8, amended: for a request that binds, that is with a non-empty
question, and when embedding the question succeeds, the handlers
`Handler.Query` and `Handler.StreamQuery` make the vector-store search run with
limit 5 for a bound `top_k` that is zero or negative and with limit `top_k` for
a positive one; `RAGService.Query` and `RAGService.StreamQuery` themselves pass
a positive `topK` on unchanged. -/
theorem handler_search_limit (h : Handler) (req : QueryRequest) (v : Embedding)
    (hq : req.Question ≠ [])
    (hembed : (h.svc.embedder.EmbedText req.Question).result = .ok v)
    (hrange : -9223372036854775808 ≤ req.TopK ∧ req.TopK < 9223372036854775808) :
    searchLimits (h.Query (.ok req)).trace = [if req.TopK ≤ 0 then 5 else req.TopK.toNat] ∧
      searchLimits (h.StreamQuery (.ok req)).trace
        = [if req.TopK ≤ 0 then 5 else req.TopK.toNat] ∧
      (0 < req.TopK →
        searchLimits (h.svc.Query req.Question req.TopK).trace = [req.TopK.toNat] ∧
        searchLimits (h.svc.StreamQuery req.Question req.TopK).trace = [req.TopK.toNat]) := by
  refine ⟨?_, ?_, ?_⟩
  · rw [Handler.Query_trace _ _ hq, Query_searchLimits _ _ _ v hembed,
      toUint64_defaultTopK _ hrange.2]
  · rw [Handler.StreamQuery_trace _ _ hq, StreamQuery_searchLimits _ _ _ v hembed,
      toUint64_defaultTopK _ hrange.2]
  · intro hpos
    rw [Query_searchLimits _ _ _ v hembed, StreamQuery_searchLimits _ _ _ v hembed,
      toUint64_of_nonneg _ (by omega) hrange.2]
    exact ⟨rfl, rfl⟩

/-- Claim C8, amended, at the request with question `q` and `top_k = -2`. -/
theorem handler_search_limit_witness :
    utf8 "q" ≠ [] ∧
      (emptyStoreService.embedder.EmbedText (utf8 "q")).result = .ok [0] ∧
      searchLimits (Handler.Query { svc := emptyStoreService }
        (.ok { Question := utf8 "q", TopK := -2 })).trace = [5] ∧
      searchLimits (Handler.StreamQuery { svc := emptyStoreService }
        (.ok { Question := utf8 "q", TopK := -2 })).trace = [5] :=
  have h := handler_search_limit { svc := emptyStoreService } { Question := utf8 "q", TopK := -2 }
    [0] (by decide) rfl (by decide)
  ⟨by decide, rfl, h.1, h.2.1⟩

/-- A request with an empty question reaches no search: both handlers answer
400 with the binding error. -/
theorem handler_empty_question :
    Handler.Query { svc := emptyStoreService } (.ok { Question := [], TopK := 3 })
        = { trace := [], result := .ok (.json 400 (utf8 "error") requiredQuestionError) } ∧
      Handler.StreamQuery { svc := emptyStoreService } (.ok { Question := [], TopK := 3 })
        = { trace := [], result := .ok (.json 400 (utf8 "error") requiredQuestionError) } :=
  Handler.query_of_bind_error _ _ _ rfl

/-- Claim C9 fails on the code: when the batched embedding call succeeds with an
empty list of embeddings, `IngestDocument` panics on `embeddings[0]` while
pairing, after the file read and the embedding call, and hands nothing to the
vector store. -/
theorem IngestDocument_short_batch :
    splitIntoChunks (utf8 "hello") = [utf8 "hello\n"] ∧
      (emptyBatchService.embedder.EmbedTexts [utf8 "hello\n"]).result = .ok [] ∧
      emptyBatchService.IngestDocument (utf8 "a.txt") =
        { trace :=
            [ .readFile (utf8 "a.txt"),
              .createEmbeddings { Model := utf8 "embed", Input := [utf8 "hello\n"] } ]
          result := .crash (utf8 "index out of range") } := by
  have hc : splitIntoChunks (utf8 "hello") = [utf8 "hello\n"] := by decide
  exact ⟨hc, rfl, rfl⟩

/-- Claim C10 fails on the code: for the path
`uploads/123e4567-e89b-12d3-a456-426614174000`, which has no dot, and a readable
file, `ExtractTextFromFile` panics on the slice expression instead of returning
the first bytes of the content. -/
theorem ExtractTextFromFile_no_dot :
    ExtractTextFromFile (fun _ => .ok (utf8 "hello"))
        (utf8 "uploads/123e4567-e89b-12d3-a456-426614174000") =
      { trace := [.readFile (utf8 "uploads/123e4567-e89b-12d3-a456-426614174000")]
        result := .crash (utf8 "slice bounds out of range [-1:]") } := by
  rfl

theorem lastIndexByte_of_mem (s : Bytes) (b : Nat) (h : b ∈ s) :
    ∃ i : Nat, lastIndexByte s b = Int.ofNat i := by
  induction s with
  | nil => simp at h
  | cons c cs ih =>
    unfold lastIndexByte
    split
    · next n hn =>
      rcases List.mem_cons.mp h with rfl | hmem
      · exact ⟨0, by simp⟩
      · obtain ⟨i, hi⟩ := ih hmem
        rw [hi] at hn
        cases hn
    · next i hi => exact ⟨i + 1, rfl⟩

theorem lastIndexByte_of_not_mem (s : Bytes) (b : Nat) (h : b ∉ s) : lastIndexByte s b = -1 := by
  induction s with
  | nil => rfl
  | cons c cs ih =>
    have hc : c ≠ b := fun e => h (by simp [e])
    have hcs : b ∉ cs := fun e => h (by simp [e])
    unfold lastIndexByte
    rw [ih hcs]
    show (if c = b then (0 : Int) else -1) = -1
    rw [if_neg hc]

theorem rag_min_eq (a b : Nat) : rag.min a b = Nat.min a b := by
  unfold rag.min
  split
  · exact (Nat.min_eq_left (by omega)).symm
  · exact (Nat.min_eq_right (by omega)).symm

/-- On a path that contains a dot and a readable file, `ExtractTextFromFile`
returns the whole content for the plain-text extensions and its first
`min 10000 len` bytes otherwise. -/
theorem ExtractTextFromFile_of_dot (readFile : Bytes → Except Bytes Bytes) (path content : Bytes)
    (hread : readFile path = .ok content) (hdot : 46 ∈ path) :
    ∃ i : Nat, lastIndexByte path 46 = Int.ofNat i ∧
      (ExtractTextFromFile readFile path).result =
        .ok (if toLower (path.drop i) ∈ plainTextExtensions then content
             else content.take (Nat.min 10000 content.length)) := by
  obtain ⟨i, hi⟩ := lastIndexByte_of_mem path 46 hdot
  refine ⟨i, hi, ?_⟩
  unfold ExtractTextFromFile
  rw [hread, Run.andThen_of_ok _ _ content rfl]
  simp only [hi, rag_min_eq]
  split
  · rfl
  · split <;> rfl

/-- On a path without a dot and a readable file, `ExtractTextFromFile` panics. -/
theorem ExtractTextFromFile_of_no_dot (readFile : Bytes → Except Bytes Bytes)
    (path content : Bytes) (hread : readFile path = .ok content) (hdot : 46 ∉ path) :
    (ExtractTextFromFile readFile path).result =
      .crash (utf8 "slice bounds out of range [-1:]") := by
  unfold ExtractTextFromFile
  rw [hread, Run.andThen_of_ok _ _ content rfl, lastIndexByte_of_not_mem path 46 hdot]
  rfl

/-- The documents `IngestDocument` builds when the batch has an embedding for
every chunk: chunk and embedding paired by position. -/
theorem buildDocuments_of_enough (source : Bytes) (embeddings : List Embedding)
    (chunks : List Bytes) (i : Nat) (h : i + chunks.length ≤ embeddings.length) :
    buildDocuments source embeddings chunks i =
      .ok (List.zipWith
        (fun chunk v => { Content := chunk, Source := source, Vector := v, Metadata := [] })
        chunks (embeddings.drop i)) := by
  induction chunks generalizing i with
  | nil => simp [buildDocuments]
  | cons chunk rest ih =>
    simp only [List.length_cons] at h
    have hi : i < embeddings.length := by omega
    have hdrop : embeddings.drop i = embeddings[i] :: embeddings.drop (i + 1) :=
      List.drop_eq_getElem_cons hi
    unfold buildDocuments
    rw [List.getElem?_eq_getElem hi, ih (i + 1) (by omega), hdrop]
    rfl

/-- The documents stop at the first chunk without an embedding: a batch shorter
than the list of chunks makes the pairing loop panic. -/
theorem buildDocuments_of_short (source : Bytes) (embeddings : List Embedding)
    (chunks : List Bytes) (i : Nat) (hle : i ≤ embeddings.length)
    (h : embeddings.length < i + chunks.length) :
    buildDocuments source embeddings chunks i = .crash (utf8 "index out of range") := by
  induction chunks generalizing i with
  | nil => simp at h; omega
  | cons chunk rest ih =>
    simp only [List.length_cons] at h
    unfold buildDocuments
    by_cases hi : i < embeddings.length
    · rw [List.getElem?_eq_getElem hi, ih (i + 1) (by omega) (by omega)]
    · rw [List.getElem?_eq_none (by omega)]

theorem ExtractTextFromFile_trace (readFile : Bytes → Except Bytes Bytes) (path : Bytes) :
    (ExtractTextFromFile readFile path).trace = [.readFile path] := by
  unfold ExtractTextFromFile
  rw [Run.andThen_trace, Run.call_trace]
  cases hr : (Run.call (Event.readFile path) (readFile path)).result with
  | ok data =>
    dsimp only
    split
    · rfl
    · split
      · rfl
      · split <;> rfl
  | error e => rfl
  | crash e => rfl

theorem EmbedTexts_eq (e : Embedder) (texts : List Bytes) (embeddings : List Embedding)
    (h : e.createEmbeddings { Model := e.model, Input := texts } = .ok embeddings) :
    e.EmbedTexts texts =
      { trace := [.createEmbeddings { Model := e.model, Input := texts }]
        result := .ok embeddings } := by
  unfold Embedder.EmbedTexts
  dsimp only
  rw [h]
  rfl

/-- When the batch has an embedding for every chunk, `IngestDocument` reads the
file, embeds the chunks in one call and hands the vector store one point per
chunk, in chunk order, pairing chunk `i` with the embedding at position `i`. -/
theorem IngestDocument_of_enough (s : RAGService) (filePath content : Bytes)
    (embeddings : List Embedding)
    (hext : (ExtractTextFromFile s.readFile filePath).result = .ok content)
    (hemb : s.embedder.createEmbeddings
      { Model := s.embedder.model, Input := splitIntoChunks content } = .ok embeddings)
    (hlen : (splitIntoChunks content).length ≤ embeddings.length) :
    (s.IngestDocument filePath).trace =
      [ .readFile filePath,
        .createEmbeddings { Model := s.embedder.model, Input := splitIntoChunks content },
        .upsert
          { CollectionName := s.store.collection
            Points := toPoints (List.zipWith
              (fun chunk v =>
                { Content := chunk, Source := filepathBase filePath, Vector := v, Metadata := [] })
              (splitIntoChunks content) embeddings) 0 } ] := by
  have hne : splitIntoChunks content ≠ [] := by
    rw [splitIntoChunks_eq_chunkLoop]
    exact chunkLoop_ne_nil _ _ (Or.inr (splitLines_ne_nil content))
  have hdocs := buildDocuments_of_enough (filepathBase filePath) embeddings
    (splitIntoChunks content) 0 (by omega)
  rw [List.drop_zero] at hdocs
  have hz : (List.zipWith
      (fun chunk v =>
        ({ Content := chunk, Source := filepathBase filePath, Vector := v, Metadata := [] } :
          Document))
      (splitIntoChunks content) embeddings).length ≠ 0 := by
    rw [List.length_zipWith]
    have := List.length_pos.mpr hne
    omega
  unfold RAGService.IngestDocument
  rw [Run.wrapError_of_ok _ _ _ hext, Run.andThen_of_ok _ _ _ hext, ExtractTextFromFile_trace]
  dsimp only
  rw [EmbedTexts_eq _ _ _ hemb, Run.wrapError_of_ok _ _ embeddings rfl,
    Run.andThen_of_ok _ _ embeddings rfl, hdocs]
  dsimp only
  unfold VectorStore.AddDocuments
  rw [if_neg hz, Run.call_trace]
  rfl

/-- When the batch has fewer embeddings than there are chunks, `IngestDocument`
panics while pairing and hands nothing to the vector store. -/
theorem IngestDocument_of_short (s : RAGService) (filePath content : Bytes)
    (embeddings : List Embedding)
    (hext : (ExtractTextFromFile s.readFile filePath).result = .ok content)
    (hemb : s.embedder.createEmbeddings
      { Model := s.embedder.model, Input := splitIntoChunks content } = .ok embeddings)
    (hlen : embeddings.length < (splitIntoChunks content).length) :
    s.IngestDocument filePath =
      { trace :=
          [ .readFile filePath,
            .createEmbeddings { Model := s.embedder.model, Input := splitIntoChunks content } ]
        result := .crash (utf8 "index out of range") } := by
  have hdocs := buildDocuments_of_short (filepathBase filePath) embeddings
    (splitIntoChunks content) 0 (by omega) (by omega)
  unfold RAGService.IngestDocument
  rw [Run.wrapError_of_ok _ _ _ hext, Run.andThen_of_ok _ _ _ hext, ExtractTextFromFile_trace]
  dsimp only
  rw [EmbedTexts_eq _ _ _ hemb, Run.wrapError_of_ok _ _ embeddings rfl,
    Run.andThen_of_ok _ _ embeddings rfl, hdocs]
  rfl

end SenRAG
